import Mathlib

/-!
Verification development for the master-edit-app administration console
(`src/app.js`, current variant: the one in which `ALLOWED_TABLES` is built
with `new Set(...)`).  The JavaScript code is shallowly embedded: pure
fragments become Lean functions, route handlers become functions producing an
explicit result value that records the outcome (HTTP-level response, thrown
error, or the first SQL statement reached), and the in-memory failed-CSV
store becomes explicit state passing.
-/

set_option maxRecDepth 4096

/-! ## JavaScript primitive values -/

/-- A rational-or-NaN model of a JavaScript number.  (The app never produces
infinities on the modelled paths.) -/
inductive JNum where
  | nan : JNum
  | val : ℚ → JNum
deriving DecidableEq, Repr

/-- The JavaScript values that can appear in a parsed JSON body or a coerced
CSV field in this app. -/
inductive JsVal where
  | undef : JsVal
  | jnull : JsVal
  | str : String → JsVal
  | num : JNum → JsVal
  | boolean : Bool → JsVal
deriving DecidableEq, Repr

/-- JavaScript falsiness: `undefined`, `null`, `""`, `0`, `NaN`, `false`. -/
def jsFalsy : JsVal → Bool
  | .undef => true
  | .jnull => true
  | .str s => s = ""
  | .num .nan => true
  | .num (.val q) => q = 0
  | .boolean b => !b

/-- Errors a modelled handler can throw. -/
inductive JsError where
  | typeError : JsError
  | appError : String → JsError
deriving DecidableEq, Repr

/-! ## JavaScript `Number(...)` on the inputs the app feeds it

The app converts strings and JSON body values with `Number(...)` and tests
the result with `Number.isInteger`.  We model the decimal-literal fragment of
the conversion (optional sign, digits, optional fraction); hexadecimal,
exponent and `Infinity` forms are not exercised by the claims. -/

def isDigitCh (c : Char) : Bool := decide ('0' ≤ c) && decide (c ≤ '9')

def digitsToNat (l : List Char) : Nat :=
  l.foldl (fun a c => a * 10 + (c.toNat - 48)) 0

def jsWhitespaceCh (c : Char) : Bool :=
  c = ' ' || c = '\t' || c = '\n' || c = '\r' ||
  c.toNat = 11 || c.toNat = 12 || c.toNat = 160 || c.toNat = 65279

def trimWsChars (l : List Char) : List Char :=
  ((l.dropWhile jsWhitespaceCh).reverse.dropWhile jsWhitespaceCh).reverse

/-- Value of an unsigned decimal literal: `digits`, `digits.digits`,
`.digits` or `digits.` — `none` when the character list is not of that
shape. -/
def decimalValue (l : List Char) : Option ℚ :=
  match l.splitOn '.' with
  | [ds] =>
      if ds ≠ [] && ds.all isDigitCh then some ((digitsToNat ds : ℚ)) else none
  | [as, bs] =>
      if (as ≠ [] || bs ≠ []) && as.all isDigitCh && bs.all isDigitCh then
        some ((digitsToNat as : ℚ) + (digitsToNat bs : ℚ) / ((10 : ℚ) ^ bs.length))
      else none
  | _ => none

/-- JavaScript `Number(string)` on its decimal-literal fragment: surrounding
whitespace is ignored, the empty string converts to `0`, and anything not a
signed decimal literal converts to `NaN`. -/
def jsNumber (s : String) : JNum :=
  let t := trimWsChars s.data
  if t = [] then .val 0
  else
    match t with
    | '+' :: r => match decimalValue r with
        | some q => .val q
        | none => .nan
    | '-' :: r => match decimalValue r with
        | some q => .val (-q)
        | none => .nan
    | r => match decimalValue r with
        | some q => .val q
        | none => .nan

/-- JavaScript `Number(v)` on a `JsVal`. -/
def jsNumberOf : JsVal → JNum
  | .undef => .nan
  | .jnull => .val 0
  | .str s => jsNumber s
  | .num n => n
  | .boolean b => .val (if b then 1 else 0)

/-- `Number.isInteger`. -/
def isJsInteger : JNum → Bool
  | .nan => false
  | .val q => q.den = 1

/-- JavaScript `String.prototype.trim` (modelled over the common whitespace
characters). -/
def jsTrim (s : String) : String := String.mk (trimWsChars s.data)

/-! ## JavaScript collections: `Set` versus `Array`

The current variant builds `ALLOWED_TABLES` with `new Set(...)`.  A JS `Set`
has a `has` method but no `includes` method, and an `Array` has `includes`
but no `has`; calling a missing method throws a `TypeError`. -/

inductive JsColl where
  | set : List String → JsColl
  | array : List String → JsColl
deriving DecidableEq, Repr

/-- `coll.includes(v)`: an array method.  On a `Set` the property lookup
yields `undefined` and the call throws a `TypeError`.  Array `includes`
compares with strict equality, so a non-string argument never matches a
string element. -/
def JsColl.includes : JsColl → JsVal → Except JsError Bool
  | .set _, _ => .error .typeError
  | .array l, .str s => .ok (l.contains s)
  | .array _, _ => .ok false

/-- `coll.has(x)`: a set method; on an `Array` the call throws. -/
def JsColl.hasMember : JsColl → String → Except JsError Bool
  | .set l, s => .ok (l.contains s)
  | .array _, _ => .error .typeError

/-! ## The master-table list (src/app.js lines 50-64) -/

structure Master where
  key : String
  label : String
  table : String
deriving DecidableEq, Repr

def MASTERS : List Master :=
  [ ⟨"lcd", "LCD", "LCD_master"⟩,
    ⟨"led", "LED", "LED_master"⟩,
    ⟨"ledOthers", "LED Others", "LED_others_master"⟩,
    ⟨"matrix", "Matrix Switcher", "matrix_switcher_master"⟩,
    ⟨"tvwallCtrl", "TV Wall Controller", "TVwall_controller_master"⟩,
    ⟨"studia", "STUDIA", "STUDIA_master"⟩,
    ⟨"stand", "e-board Stand", "e_board_stand_master"⟩,
    ⟨"ops", "OPS", "OPS_master"⟩,
    ⟨"dongle", "Dongle", "dongle_master"⟩,
    ⟨"player", "Player", "player_master"⟩ ]

def masterTableNames : List String := MASTERS.map (fun m => m.table)

/-- `const ALLOWED_TABLES = new Set(MASTERS.map((m) => m.table));` -/
def ALLOWED_TABLES : JsColl := .set masterTableNames

/-- `getSafeTable` (src/app.js lines 71-74): `!tableName` is true for the
empty string; otherwise `ALLOWED_TABLES.has(tableName)`. -/
def getSafeTable (tableName : String) : Except JsError (Option String) :=
  if tableName = "" then .ok none
  else do
    let b ← ALLOWED_TABLES.hasMember tableName
    .ok (if b then some tableName else none)

/-- Modelled from the spec: the master-table naming convention (suffix
`_master`), used only to compare the spec's dynamic-discovery description
with the code's hardcoded list. -/
def matchesMasterPattern (name : String) : Bool :=
  List.isSuffixOf "_master".data name.data

/-- Modelled from the spec: `listMasterTables()` as the spec words it —
query the schema metadata for the tables whose name matches the convention.
The code has no such function; this definition exists only for the
refinement comparison in claim C4. -/
def specListMasterTables (schemaTables : List String) : List String :=
  schemaTables.filter matchesMasterPattern

/-! ## Route models

Each route is modelled up to the first SQL statement it would execute; the
result value records which outcome the handler reached. -/

/-- Outcome of `fetchMasterList` (src/app.js lines 96-130) up to the first
SQL statement (`SHOW COLUMNS` via `getTableColumns`, reached only past the
membership test). -/
inductive ListOutcome where
  | thrown : JsError → ListOutcome
  | proceed : String → ListOutcome
deriving DecidableEq, Repr

/-- `fetchMasterList` start: `if (!ALLOWED_TABLES.includes(tableName)) throw
new Error(...)`. -/
def fetchMasterListStart (tableName : String) : ListOutcome :=
  match ALLOWED_TABLES.includes (.str tableName) with
  | .error e => .thrown e
  | .ok b =>
      if !b then .thrown (.appError ("Invalid table: " ++ tableName))
      else .proceed tableName

/-- Outcome of `GET /masters/:table/:id` (src/app.js lines 152-179) up to
the first SQL statement. -/
inductive DetailOutcome where
  | thrown : JsError → DetailOutcome
  | invalidTable : DetailOutcome
  | invalidId : DetailOutcome
  | query : String → JNum → DetailOutcome
deriving DecidableEq, Repr

/-- The detail route: membership test with `includes`, then
`Number.isInteger(Number(id))`, then `SELECT * FROM ... WHERE id = ?`. -/
def detailRoute (table id : String) : DetailOutcome :=
  match ALLOWED_TABLES.includes (.str table) with
  | .error e => .thrown e
  | .ok b =>
      if !b then .invalidTable
      else
        let safeId := jsNumber id
        if !isJsInteger safeId then .invalidId
        else .query table safeId

/-- Outcome of `POST /toggle-active` (src/app.js lines 342-373) up to the
first SQL statement.  `unsupportedOp` is the outcome the spec prescribes for
a table without an `is_active` column; the handler has no code path
producing it. -/
inductive ToggleOutcome where
  | missing : ToggleOutcome
  | thrown : JsError → ToggleOutcome
  | invalidTable : ToggleOutcome
  | invalidId : ToggleOutcome
  | unsupportedOp : ToggleOutcome
  | update : String → JNum → ToggleOutcome
deriving DecidableEq, Repr

structure ToggleBody where
  table : JsVal
  id : JsVal
deriving DecidableEq, Repr

/-- The toggle handler: `if (!table || !id)` missing-field guard, then the
`includes` membership test, then the integer check, then the single
conditional `UPDATE`. -/
def togglePost (body : ToggleBody) : ToggleOutcome :=
  if jsFalsy body.table || jsFalsy body.id then .missing
  else
    match ALLOWED_TABLES.includes body.table with
    | .error e => .thrown e
    | .ok b =>
        if !b then .invalidTable
        else
          let safeId := jsNumberOf body.id
          if !isJsInteger safeId then .invalidId
          else
            match body.table with
            | .str t => .update t safeId
            | _ => .invalidTable

/-! ## CSV upload pipeline (src/app.js lines 195-314)

A parsed CSV record (`csv-parse` with `columns: true, trim: true`) is a
JavaScript object: an association list from header name to trimmed string
field value. -/

structure CsvRow where
  fields : List (String × String)
deriving DecidableEq, Repr

/-- A failed row as pushed by the upload loop:
`{ ...row, __row: rowNumber, __reason: ... }`. -/
structure FailedRow where
  fields : List (String × String)
  lineNo : Nat
  reason : String
deriving DecidableEq, Repr

/-- `insertableCols.filter((col) => Object.prototype.hasOwnProperty.call(row, col))`. -/
def colsToUse (insertableCols : List String) (row : CsvRow) : List String :=
  insertableCols.filter (fun c => (row.fields.lookup c).isSome)

/-- A coerced value as it is bound into the INSERT. -/
inductive JSVal where
  | vnull : JSVal
  | vstr : String → JSVal
  | vnum : JNum → JSVal
deriving DecidableEq, Repr

/-- The per-field coercion of the upload loop (src/app.js lines 244-260):
`undefined`/`""`/`"NULL"` become null, `is_active` and `inch` go through
`Number(...)` (the inner `v === "" ? null : ...` test on the `inch` branch
is unreachable because `v === ""` was already handled), everything else
passes through. -/
def coerceValue (col : String) (v : Option String) : JSVal :=
  match v with
  | none => .vnull
  | some s =>
      if s = "" then .vnull
      else if s = "NULL" then .vnull
      else if col = "is_active" then .vnum (jsNumber s)
      else if col = "inch" then .vnum (jsNumber s)
      else .vstr s

def rowValues (cols : List String) (row : CsvRow) : List JSVal :=
  cols.map (fun c => coerceValue c (row.fields.lookup c))

/-- One iteration body of the upload loop for one record, with the INSERT
abstracted as an oracle `ins` receiving the column list and coerced values
(its `String` error is the already-formatted `__reason`).  Mirrors the
source order: empty-intersection check, value coercion, `PN2` required-label
check, then the INSERT. -/
def processRow (insertableCols : List String)
    (ins : List String × List JSVal → Except String Unit) (row : CsvRow) :
    Except String Unit :=
  let cols := colsToUse insertableCols row
  if cols.isEmpty then
    .error "CSVの列名とDBカラムが一致しません（挿入できる列が0件）"
  else
    let vals := rowValues cols row
    match row.fields.lookup "PN2" with
    | some pn2 => if jsTrim pn2 = "" then .error "PN2が空" else ins (cols, vals)
    | none => ins (cols, vals)

/-- The upload loop from index `i`: each record is appended to exactly one
of `okRows` or `failedRows`; a failed record is stored with
`__row = index + 2` (the first data row is logical line 2). -/
def uploadGo (insertableCols : List String)
    (ins : Nat → List String × List JSVal → Except String Unit) :
    Nat → List CsvRow → List CsvRow × List FailedRow
  | _, [] => ([], [])
  | i, row :: rest =>
      let tail := uploadGo insertableCols ins (i + 1) rest
      match processRow insertableCols (ins i) row with
      | .ok _ => (row :: tail.1, tail.2)
      | .error msg => (tail.1, ⟨row.fields, i + 2, msg⟩ :: tail.2)

/-- The whole per-row loop (step ⑤ of the handler). -/
def uploadProcess (insertableCols : List String)
    (ins : Nat → List String × List JSVal → Except String Unit)
    (records : List CsvRow) : List CsvRow × List FailedRow :=
  uploadGo insertableCols ins 0 records

/-- `let downloadId = null; if (failedRows.length > 0) downloadId = uuid`
(step ⑥). -/
def issueDownloadId (uuid : String) (failedRows : List FailedRow) : Option String :=
  if failedRows.length > 0 then some uuid else none

/-- The rendered upload result (step ⑦): the fields handed to
`master_upload_result`. -/
structure UploadResult where
  table : String
  count : Nat
  okCount : Nat
  failedCount : Nat
  preview : List CsvRow
  downloadId : Option String
deriving DecidableEq, Repr

/-- Composition of the loop and the render for a parsed record list. -/
def uploadRoute (table : String) (insertableCols : List String)
    (ins : Nat → List String × List JSVal → Except String Unit)
    (uuid : String) (records : List CsvRow) : UploadResult :=
  let r := uploadProcess insertableCols ins records
  ⟨table, records.length, r.1.length, r.2.length, records.take 5,
    issueDownloadId uuid r.2⟩

/-! ## Failed-row retention store (src/app.js lines 19-27, 289-297, 319-323)

`failedCsvStore` is a JS `Map`; we model it as an association list in which
the most recent binding for a key comes first (JS `Map.set` replaces the
binding for an existing key). -/

structure FailedBatch where
  createdAt : Nat
  table : String
  rows : List FailedRow
deriving DecidableEq, Repr

abbrev Store := List (String × FailedBatch)

def storeEmpty : Store := []

/-- `failedCsvStore.set(downloadId, {...})`. -/
def storePut (st : Store) (id : String) (b : FailedBatch) : Store :=
  (id, b) :: List.filter (fun p => p.1 ≠ id) st

/-- `failedCsvStore.get(id)` (the route's lookup; it performs no expiry
check of its own). -/
def storeGet (st : Store) (id : String) : Option FailedBatch :=
  List.lookup id st

/-- One run of the sweep interval body at wall time `now`: delete every
batch with `now - createdAt > 10 * 60 * 1000`. -/
def sweepStore (now : Nat) (st : Store) : Store :=
  List.filter (fun p => now - p.2.createdAt ≤ 600000) st

/-- The sweeps the `setInterval(..., 60 * 1000)` timer has fired by tick
`k`: one run at each of `60000, 120000, ..., k * 60000`. -/
def sweepRun : Nat → Store → Store
  | 0, st => st
  | k + 1, st => sweepStore ((k + 1) * 60000) (sweepRun k st)

/-- The store contents observed at wall time `t`, after every sweep due by
`t` has fired. -/
def storeAt (t : Nat) (st : Store) : Store :=
  sweepRun (t / 60000) st

deriving instance DecidableEq for Except

/-! ## Theorems -/

/-- C2: every invocation of `fetchMasterList`, the detail route, and the
toggle route that reaches the `ALLOWED_TABLES.includes(...)` membership test
throws a `TypeError` (a `Set` has no `includes` method), for allowed and
disallowed table names alike, before any validation outcome or SQL; only
`getSafeTable`, which uses `Set.has`, completes normally. -/
theorem set_includes_type_error :
    (∀ t : String, fetchMasterListStart t = .thrown .typeError)
    ∧ (∀ t i : String, detailRoute t i = .thrown .typeError)
    ∧ (∀ b : ToggleBody, jsFalsy b.table = false → jsFalsy b.id = false →
        togglePost b = .thrown .typeError)
    ∧ (∀ t : String, getSafeTable t =
        .ok (if masterTableNames.contains t then some t else none)) := by
  refine ⟨fun t => rfl, fun t i => rfl, fun b hb hi => ?_, fun t => ?_⟩
  · simp [togglePost, hb, hi, ALLOWED_TABLES, JsColl.includes]
  · by_cases h : t = ""
    · subst h; decide
    · unfold getSafeTable
      rw [if_neg h]
      rfl

/-- Witness for C2: a concrete toggle request with truthy body fields
throws the `TypeError`. -/
theorem set_includes_type_error_witness :
    togglePost ⟨.str "LCD_master", .num (.val 1)⟩ = .thrown .typeError :=
  set_includes_type_error.2.2.1 ⟨.str "LCD_master", .num (.val 1)⟩
    (by decide) (by decide)

/-- C3 counterexample: a concrete toggle request (on `LCD_master`, whose
column set the handler never consults) does not fail with
`UnsupportedOperationError`; it throws a `TypeError` at the membership test,
and the handler contains no column check at all. -/
theorem toggle_missing_flag_counterexample :
    togglePost ⟨.str "LCD_master", .num (.val 1)⟩ ≠ .unsupportedOp
    ∧ togglePost ⟨.str "LCD_master", .num (.val 1)⟩ = .thrown .typeError := by
  decide

/-- C3 amended: a toggle request that passes the missing-field guard always
throws a `TypeError` at the broken membership test — so no `UPDATE` is ever
issued (for tables with and without `is_active` alike), but no
`UnsupportedOperationError` is produced and the table's live columns are
never checked. -/
theorem toggle_missing_flag_amended (b : ToggleBody)
    (ht : jsFalsy b.table = false) (hi : jsFalsy b.id = false) :
    togglePost b = .thrown .typeError
    ∧ togglePost b ≠ .unsupportedOp
    ∧ ∀ t n, togglePost b ≠ .update t n := by
  have h : togglePost b = .thrown .typeError := by
    simp [togglePost, ht, hi, ALLOWED_TABLES, JsColl.includes]
  refine ⟨h, ?_, fun t n => ?_⟩
  · rw [h]; intro hc; cases hc
  · rw [h]; intro hc; cases hc

/-- Witness for the amended C3. -/
theorem toggle_missing_flag_amended_witness :
    togglePost ⟨.str "dongle_master", .num (.val 3)⟩ = .thrown .typeError
    ∧ togglePost ⟨.str "dongle_master", .num (.val 3)⟩ ≠ .unsupportedOp
    ∧ ∀ t n, togglePost ⟨.str "dongle_master", .num (.val 3)⟩ ≠ .update t n :=
  toggle_missing_flag_amended ⟨.str "dongle_master", .num (.val 3)⟩
    (by decide) (by decide)

/-- C4 counterexample: `foo_master` matches the master-table naming
convention (so the spec's dynamic discovery would list it whenever the
schema contains it), yet the code's allow-check rejects it: the table set is
not discovered from the schema. -/
theorem master_discovery_counterexample :
    "foo_master" ∈ specListMasterTables ["foo_master", "LCD_master"]
    ∧ getSafeTable "foo_master" = .ok none := by decide

/-- C4 amended: the set of master tables is the fixed list hardcoded in
`MASTERS`; it is not read from the database's schema metadata and there is
no TTL cache — a newly added table requires a code change and restart. -/
theorem master_discovery_amended :
    masterTableNames =
      ["LCD_master", "LED_master", "LED_others_master",
       "matrix_switcher_master", "TVwall_controller_master", "STUDIA_master",
       "e_board_stand_master", "OPS_master", "dongle_master", "player_master"]
    ∧ ALLOWED_TABLES = .set masterTableNames := ⟨rfl, rfl⟩

/-- C6 counterexample: the `is_active` field value `"2"` is coerced to the
number `2`, which is neither `0` nor `1` — `Number(v)` is applied
unclamped. -/
theorem coercion_counterexample :
    coerceValue "is_active" (some "2") = .vnum (.val 2)
    ∧ JNum.val 2 ≠ .val 0 ∧ JNum.val 2 ≠ .val 1 := by decide

/-- C6 amended: an absent value, the empty string and the literal token
`"NULL"` coerce to null; a present `is_active` or `inch` value coerces to
the JavaScript numeric conversion of the string (0/1 only when the input
denotes 0/1 — arbitrary numbers and `NaN` pass through); every other field
passes through unchanged as text. -/
theorem coercion_amended (col : String) (v : String) :
    coerceValue col none = .vnull
    ∧ ((v = "" ∨ v = "NULL") → coerceValue col (some v) = .vnull)
    ∧ (v ≠ "" → v ≠ "NULL" → col = "is_active" →
        coerceValue col (some v) = .vnum (jsNumber v))
    ∧ (v ≠ "" → v ≠ "NULL" → col = "inch" →
        coerceValue col (some v) = .vnum (jsNumber v))
    ∧ (v ≠ "" → v ≠ "NULL" → col ≠ "is_active" → col ≠ "inch" →
        coerceValue col (some v) = .vstr v) := by
  refine ⟨rfl, fun hv => ?_, fun h1 h2 h3 => ?_, fun h1 h2 h3 => ?_,
    fun h1 h2 h3 h4 => ?_⟩
  · rcases hv with hv | hv <;> subst hv <;> simp [coerceValue]
  · subst h3; simp [coerceValue, h1, h2]
  · subst h3; simp [coerceValue, h1, h2]
  · simp [coerceValue, h1, h2, h3, h4]

/-- Witness for the amended C6. -/
theorem coercion_amended_witness :
    coerceValue "is_active" (some "2") = .vnum (jsNumber "2") :=
  (coercion_amended "is_active" "2").2.2.1 (by decide) (by decide) rfl

/-- C7 counterexample: for the non-integer id `"abc"` on an allowed table,
the detail route throws a `TypeError` at the membership test — it does not
produce the `InvalidIdError` client response (though indeed no database
query is issued). -/
theorem detail_invalid_id_counterexample :
    detailRoute "LCD_master" "abc" = .thrown .typeError
    ∧ detailRoute "LCD_master" "abc" ≠ .invalidId
    ∧ isJsInteger (jsNumber "abc") = false := by decide

/-- C7 amended: every detail request — whatever the id — throws a
`TypeError` at the `ALLOWED_TABLES.includes` test before the id is examined;
no database query is issued, and the `InvalidIdError` response is
unreachable in this variant. -/
theorem detail_invalid_id_amended (table id : String) :
    detailRoute table id = .thrown .typeError
    ∧ detailRoute table id ≠ .invalidId
    ∧ ∀ t n, detailRoute table id ≠ .query t n := by
  refine ⟨rfl, ?_, fun t n => ?_⟩ <;> intro hc <;> cases hc

/-- C10: a falsy `id` — including the well-formed integer `0` — or an empty
string `table`/`id` is rejected by the missing-field guard as the
missing-fields client error; the table allow-list is not consulted (in this
variant consulting it would throw, and the outcome is `missing`, not a
throw) and no SQL runs. -/
theorem toggle_falsy_guard :
    (∀ t : JsVal, togglePost ⟨t, .num (.val 0)⟩ = .missing)
    ∧ (∀ i : JsVal, togglePost ⟨.str "", i⟩ = .missing)
    ∧ (∀ t : JsVal, togglePost ⟨t, .str ""⟩ = .missing)
    ∧ isJsInteger (jsNumberOf (.num (.val 0))) = true
    ∧ (∀ t : JsVal, togglePost ⟨t, .num (.val 0)⟩ ≠ .thrown .typeError) := by
  refine ⟨fun t => ?_, fun i => ?_, fun t => ?_, by decide, fun t => ?_⟩ <;>
    simp [togglePost, jsFalsy]

/-- Helper: a successful association-list lookup exhibits a member pair. -/
theorem lookup_mem_store {l : Store} {id : String} {b : FailedBatch}
    (h : List.lookup id l = some b) : (id, b) ∈ l := by
  induction l with
  | nil => cases h
  | cons p t ih =>
      simp only [List.lookup] at h
      rcases hbe : (id == p.1) with _ | _
      · rw [hbe] at h
        exact List.mem_cons_of_mem _ (ih h)
      · rw [hbe] at h
        cases h
        have he : id = p.1 := by
          have := (beq_iff_eq ..).mp hbe
          exact this
        rw [he]
        exact List.mem_cons_self _ _

/-- C5 counterexample: a batch put at wall time 30000 is still returned by
`get` at wall time 635000 — 605000 ms after creation, past the 10-minute
window — because `get` performs no expiry check and the last sweep (at
600000, when the batch was only 570000 ms old) did not evict it. -/
theorem retention_expiry_counterexample :
    635000 - 30000 > 600000
    ∧ storeGet
        (storeAt 635000
          (storePut storeEmpty "d1"
            ⟨30000, "LCD_master", [⟨[("PN2", "x")], 2, "r"⟩]⟩)) "d1"
      = some ⟨30000, "LCD_master", [⟨[("PN2", "x")], 2, "r"⟩]⟩ := by decide

/-- C5 amended: `put` followed immediately by `get` with the same id yields
the identical batch; `get` with an id not present in the store is absent;
and a batch becomes unreachable once a background sweep runs at a time more
than 10 minutes after its creation — between window expiry and that sweep
(up to 60 s) `get` may still return it. -/
theorem retention_store_amended :
    (∀ (st : Store) (id : String) (b : FailedBatch),
        storeGet (storePut st id b) id = some b)
    ∧ (∀ (st : Store) (id : String),
        id ∉ st.map Prod.fst → storeGet st id = none)
    ∧ (∀ (now : Nat) (st : Store) (id : String) (b : FailedBatch),
        600000 < now - b.createdAt →
        storeGet (sweepStore now st) id ≠ some b) := by
  refine ⟨fun st id b => ?_, fun st id hid => ?_, fun now st id b hexp hc => ?_⟩
  · simp [storeGet, storePut, List.lookup]
  · induction st with
    | nil => rfl
    | cons p t ih =>
        simp only [List.map_cons, List.mem_cons] at hid
        push_neg at hid
        have hbe : (id == p.1) = false := by
          exact beq_eq_false_iff_ne.mpr hid.1
        show List.lookup id (p :: t) = none
        simp only [List.lookup, hbe]
        exact ih hid.2
  · have hmem : (id, b) ∈ sweepStore now st := lookup_mem_store hc
    have hcond := (List.mem_filter.mp hmem).2
    simp only [decide_eq_true_eq] at hcond
    omega

/-- Witness for the amended C5 at concrete inputs. -/
theorem retention_store_amended_witness :
    storeGet (storePut storeEmpty "a" ⟨0, "LCD_master", []⟩) "a"
      = some ⟨0, "LCD_master", []⟩
    ∧ storeGet storeEmpty "b" = none
    ∧ storeGet (sweepStore 700000 (storePut storeEmpty "a" ⟨0, "LCD_master", []⟩)) "a"
      ≠ some ⟨0, "LCD_master", []⟩ :=
  ⟨retention_store_amended.1 storeEmpty "a" ⟨0, "LCD_master", []⟩,
   retention_store_amended.2.1 storeEmpty "b" (by decide),
   retention_store_amended.2.2 700000
     (storePut storeEmpty "a" ⟨0, "LCD_master", []⟩) "a"
     ⟨0, "LCD_master", []⟩ (by decide)⟩

/-- C9: every parsed record lands in exactly one of `okRows` and
`failedRows`, so the rendered counts satisfy `okCount + failedCount =
count`, and a retrieval id is issued exactly when `failedCount > 0`. -/
theorem upload_partition_invariant (table : String)
    (insertableCols : List String)
    (ins : Nat → List String × List JSVal → Except String Unit)
    (uuid : String) (records : List CsvRow) :
    (uploadRoute table insertableCols ins uuid records).okCount
        + (uploadRoute table insertableCols ins uuid records).failedCount
      = (uploadRoute table insertableCols ins uuid records).count
    ∧ ((uploadRoute table insertableCols ins uuid records).downloadId.isSome
        ↔ 0 < (uploadRoute table insertableCols ins uuid records).failedCount) := by
  constructor
  · show (uploadGo insertableCols ins 0 records).1.length
        + (uploadGo insertableCols ins 0 records).2.length = records.length
    generalize 0 = i
    induction records generalizing i with
    | nil => rfl
    | cons r rs ih =>
        have h := ih (i + 1)
        simp only [uploadGo]
        cases processRow insertableCols (ins i) r with
        | ok u => simp only [List.length_cons]; omega
        | error m => simp only [List.length_cons]; omega
  · show (issueDownloadId uuid (uploadGo insertableCols ins 0 records).2).isSome
        ↔ 0 < (uploadGo insertableCols ins 0 records).2.length
    unfold issueDownloadId
    split <;> simp_all

/-- Helper: the upload loop distributes over list append, shifting the
record index by the length of the first part. -/
theorem uploadGo_append (c : List String)
    (ins : Nat → List String × List JSVal → Except String Unit)
    (i : Nat) (xs ys : List CsvRow) :
    uploadGo c ins i (xs ++ ys)
      = ((uploadGo c ins i xs).1 ++ (uploadGo c ins (i + xs.length) ys).1,
         (uploadGo c ins i xs).2 ++ (uploadGo c ins (i + xs.length) ys).2) := by
  induction xs generalizing i with
  | nil => simp [uploadGo]
  | cons x t ih =>
      simp only [List.cons_append, uploadGo]
      cases processRow c (ins i) x <;>
        simp [ih (i + 1), List.length_cons, Nat.add_assoc, Nat.add_comm,
          Nat.add_left_comm]

/-- Helper: a stretch of records whose processing succeeds is reproduced
verbatim in `okRows` and contributes no failures. -/
theorem uploadGo_all_ok (c : List String)
    (ins : Nat → List String × List JSVal → Except String Unit)
    (i : Nat) (rows : List CsvRow)
    (h : ∀ j (hj : j < rows.length),
        processRow c (ins (i + j)) (rows.get ⟨j, hj⟩) = .ok ()) :
    uploadGo c ins i rows = (rows, []) := by
  induction rows generalizing i with
  | nil => rfl
  | cons r t ih =>
      have h0 : processRow c (ins i) r = .ok () := by
        have := h 0 (by simp)
        simpa using this
      have ht : uploadGo c ins (i + 1) t = (t, []) := by
        apply ih
        intro j hj
        have := h (j + 1) (by simpa using Nat.succ_lt_succ hj)
        have harith : i + (j + 1) = i + 1 + j := by omega
        rw [harith] at this
        simpa using this
      simp [uploadGo, h0, ht]

/-- C1: if, among `N` parsed records, exactly the `k`-th (1-indexed) fails
its validation or insert, the rendered result reports `count = N`,
`okCount = N - 1`, `failedCount = 1`, the failure list is exactly one entry
carrying line number `k + 1` (the header occupies line 1), and — row
isolation — every record after the `k`-th is still attempted and succeeds,
`okRows` being all other records in order. -/
theorem upload_single_failure_counts (table : String)
    (insertableCols : List String)
    (ins : Nat → List String × List JSVal → Except String Unit)
    (uuid : String) (pre post : List CsvRow) (bad : CsvRow)
    (k : Nat) (msg : String)
    (hk1 : 1 ≤ k) (hkpre : pre.length = k - 1)
    (hpre : ∀ j (hj : j < pre.length),
        processRow insertableCols (ins j) (pre.get ⟨j, hj⟩) = .ok ())
    (hbad : processRow insertableCols (ins (k - 1)) bad = .error msg)
    (hpost : ∀ j (hj : j < post.length),
        processRow insertableCols (ins (k + j)) (post.get ⟨j, hj⟩) = .ok ()) :
    (uploadRoute table insertableCols ins uuid (pre ++ bad :: post)).count
        = (pre ++ bad :: post).length
    ∧ (uploadRoute table insertableCols ins uuid (pre ++ bad :: post)).okCount
        = (pre ++ bad :: post).length - 1
    ∧ (uploadRoute table insertableCols ins uuid (pre ++ bad :: post)).failedCount = 1
    ∧ (uploadProcess insertableCols ins (pre ++ bad :: post)).2
        = [⟨bad.fields, k + 1, msg⟩]
    ∧ (uploadProcess insertableCols ins (pre ++ bad :: post)).1 = pre ++ post := by
  have hpreGo : uploadGo insertableCols ins 0 pre = (pre, []) := by
    apply uploadGo_all_ok
    intro j hj
    simpa using hpre j hj
  have hpostGo : uploadGo insertableCols ins (pre.length + 1) post = (post, []) := by
    apply uploadGo_all_ok
    intro j hj
    have harith : pre.length + 1 + j = k + j := by omega
    rw [harith]
    exact hpost j hj
  have hbad2 : processRow insertableCols (ins pre.length) bad = .error msg := by
    rw [hkpre]; exact hbad
  have hrest : uploadGo insertableCols ins pre.length (bad :: post)
      = (post, [⟨bad.fields, pre.length + 2, msg⟩]) := by
    simp [uploadGo, hbad2, hpostGo]
  have hmain : uploadProcess insertableCols ins (pre ++ bad :: post)
      = (pre ++ post, [⟨bad.fields, k + 1, msg⟩]) := by
    unfold uploadProcess
    rw [uploadGo_append, hpreGo]
    simp only [Nat.zero_add]
    rw [hrest]
    have harith : pre.length + 2 = k + 1 := by omega
    simp [harith]
  refine ⟨rfl, ?_, ?_, ?_, ?_⟩
  · show (uploadProcess insertableCols ins (pre ++ bad :: post)).1.length
        = (pre ++ bad :: post).length - 1
    rw [hmain]
    simp only [List.length_append, List.length_cons]
    omega
  · show (uploadProcess insertableCols ins (pre ++ bad :: post)).2.length = 1
    rw [hmain]
    rfl
  · rw [hmain]
  · rw [hmain]


/-- Witness for C1: a two-row upload in which row 1 fails the required-label
check (`PN2` empty) and row 2 succeeds. -/
theorem upload_single_failure_counts_witness :
    (uploadRoute "LCD_master" ["PN2"] (fun _ _ => .ok ()) "u"
        [⟨[("PN2", "")]⟩, ⟨[("PN2", "A")]⟩]).count = 2
    ∧ (uploadRoute "LCD_master" ["PN2"] (fun _ _ => .ok ()) "u"
        [⟨[("PN2", "")]⟩, ⟨[("PN2", "A")]⟩]).okCount = 1
    ∧ (uploadRoute "LCD_master" ["PN2"] (fun _ _ => .ok ()) "u"
        [⟨[("PN2", "")]⟩, ⟨[("PN2", "A")]⟩]).failedCount = 1
    ∧ (uploadProcess ["PN2"] (fun _ _ => .ok ())
        [⟨[("PN2", "")]⟩, ⟨[("PN2", "A")]⟩]).2
        = [⟨[("PN2", "")], 2, "PN2が空"⟩]
    ∧ (uploadProcess ["PN2"] (fun _ _ => .ok ())
        [⟨[("PN2", "")]⟩, ⟨[("PN2", "A")]⟩]).1 = [⟨[("PN2", "A")]⟩] := by
  have h := upload_single_failure_counts "LCD_master" ["PN2"]
    (fun _ _ => .ok ()) "u" [] [⟨[("PN2", "A")]⟩] ⟨[("PN2", "")]⟩ 1 "PN2が空"
    (by decide) (by decide)
    (by intro j hj; exact absurd hj (by simp))
    (by decide)
    (by intro j hj
        simp only [List.length_cons, List.length_nil] at hj
        have hj0 : j = 0 := by omega
        subst hj0
        rfl)
  simpa using h

/-! ## Failed-row CSV download and re-parse (src/app.js lines 319-336)

`stringify(data.rows, { header: true })` renders the stored rows as
RFC-4180-style delimited text: columns are the first record's keys, every
record is terminated by a LF, and a field is quoted (with `""` escaping)
when it contains a quote, the delimiter, or a CR/LF.  The response body is
the text prefixed with a byte-order mark.  The re-parse models `csv-parse`
with a LF record delimiter (the only delimiter the stringifier emits
outside quotes) and BOM handling. -/

def dqCh : Char := Char.ofNat 34

def commaCh : Char := ','

def nlCh : Char := Char.ofNat 10

def crCh : Char := Char.ofNat 13

def bomCh : Char := Char.ofNat 65279

def needsQuoteF (f : List Char) : Bool :=
  f.any (fun c => c = dqCh || c = commaCh || c = nlCh || c = crCh)

/-- Double every quote character (the `""` escape). -/
def escQ : List Char → List Char
  | [] => []
  | c :: r => if c = dqCh then dqCh :: dqCh :: escQ r else c :: escQ r

/-- One stringified field. -/
def encField (f : List Char) : List Char :=
  if needsQuoteF f then dqCh :: (escQ f ++ [dqCh]) else f

/-- One stringified record (fields joined by the delimiter). -/
def encRow : List (List Char) → List Char
  | [] => []
  | [f] => encField f
  | f :: fs => encField f ++ commaCh :: encRow fs

/-- The stringified document: every record terminated by LF. -/
def encCsv (rows : List (List (List Char))) : List Char :=
  rows.foldr (fun r acc => encRow r ++ nlCh :: acc) []

/-- Parser state: inside quotes / just after a closing quote / at a field
start, plus the reversed current field, reversed current record and
reversed finished records.  `bad` marks a structural parse error. -/
structure MState where
  bad : Bool
  inQ : Bool
  postQ : Bool
  atStart : Bool
  cur : List Char
  row : List (List Char)
  acc : List (List (List Char))
deriving Repr

def mstep (s : MState) (c : Char) : MState :=
  if s.bad then s
  else if s.inQ then
    if c = dqCh then { s with inQ := false, postQ := true }
    else { s with cur := c :: s.cur }
  else if s.postQ then
    if c = dqCh then { s with inQ := true, postQ := false, cur := dqCh :: s.cur }
    else if c = commaCh then
      { s with postQ := false, atStart := true, cur := [],
               row := s.cur.reverse :: s.row }
    else if c = nlCh then
      { s with postQ := false, atStart := true, cur := [], row := [],
               acc := (s.cur.reverse :: s.row).reverse :: s.acc }
    else { s with bad := true }
  else
    if c = dqCh then
      if s.atStart then { s with inQ := true, atStart := false }
      else { s with bad := true }
    else if c = commaCh then
      { s with atStart := true, cur := [], row := s.cur.reverse :: s.row }
    else if c = nlCh then
      { s with atStart := true, cur := [], row := [],
               acc := (s.cur.reverse :: s.row).reverse :: s.acc }
    else { s with atStart := false, cur := c :: s.cur }

def minit : MState := ⟨false, false, false, true, [], [], []⟩

/-- Finish: reject on error or an unterminated quote; emit a pending final
record (input not ending in a record delimiter); convert to strings. -/
def mfinal (s : MState) : Option (List (List String)) :=
  if s.bad || s.inQ then none
  else if s.postQ || !s.atStart || !s.row.isEmpty then
    some (((s.cur.reverse :: s.row).reverse :: s.acc).reverse.map
      (fun r => r.map String.mk))
  else
    some (s.acc.reverse.map (fun r => r.map String.mk))

/-- The modelled `csv-parse`: records of fields from delimited text. -/
def parseRecords (cs : List Char) : Option (List (List String)) :=
  mfinal (cs.foldl mstep minit)

/-- BOM handling on re-parse: the leading byte-order mark is a
compatibility prefix, not field data. -/
def stripBom : List Char → List Char
  | [] => []
  | c :: r => if c = bomCh then r else c :: r

/-- The column list `stringify` infers: the first stored record's keys —
original CSV header names followed by the two synthetic fields. -/
def downloadKeys (batch : List FailedRow) : List String :=
  match batch with
  | [] => []
  | fr :: _ => fr.fields.map Prod.fst ++ ["__row", "__reason"]

/-- The values `stringify` extracts from one stored failed row for the
given columns (`__row` is the stringified line number). -/
def failedRowValues (keys : List String) (fr : FailedRow) : List String :=
  keys.map (fun k =>
    if k = "__row" then toString fr.lineNo
    else if k = "__reason" then fr.reason
    else (fr.fields.lookup k).getD "")

/-- The download response body: BOM, header record, one record per stored
failed row. -/
def downloadCsvChars (batch : List FailedRow) : List Char :=
  bomCh :: encCsv (((downloadKeys batch).map String.data)
    :: batch.map (fun fr => (failedRowValues (downloadKeys batch) fr).map String.data))

/-! ### Round-trip lemmas for the stringifier and parser -/

/-- Helper: consuming unquoted field characters accumulates them. -/
theorem foldl_mstep_unquoted (f : List Char)
    (hf : ∀ c ∈ f, c ≠ dqCh ∧ c ≠ commaCh ∧ c ≠ nlCh) :
    ∀ (a : Bool) (cur : List Char) (row : List (List Char))
      (acc : List (List (List Char))),
    List.foldl mstep ⟨false, false, false, a, cur, row, acc⟩ f
      = ⟨false, false, false, a && f.isEmpty, f.reverse ++ cur, row, acc⟩ := by
  induction f with
  | nil => intro a cur row acc; simp
  | cons c r ih =>
      intro a cur row acc
      have hc := hf c (List.mem_cons_self c r)
      have hr : ∀ x ∈ r, x ≠ dqCh ∧ x ≠ commaCh ∧ x ≠ nlCh :=
        fun x hx => hf x (List.mem_cons_of_mem c hx)
      simp only [List.foldl_cons, mstep, hc.1, hc.2.1, hc.2.2,
        if_false, Bool.false_eq_true, ite_false]
      rw [ih hr false (c :: cur) row acc]
      simp

/-- Helper: consuming the quote-escaped content of a quoted field
accumulates the original characters and stays inside quotes. -/
theorem foldl_mstep_quoted (f : List Char) :
    ∀ (cur : List Char) (row : List (List Char))
      (acc : List (List (List Char))),
    List.foldl mstep ⟨false, true, false, false, cur, row, acc⟩ (escQ f)
      = ⟨false, true, false, false, f.reverse ++ cur, row, acc⟩ := by
  induction f with
  | nil => intro cur row acc; simp [escQ]
  | cons c r ih =>
      intro cur row acc
      by_cases hc : c = dqCh
      · subst hc
        rw [show escQ (dqCh :: r) = dqCh :: dqCh :: escQ r from by
          simp [escQ]]
        simp only [List.foldl_cons]
        rw [show mstep ⟨false, true, false, false, cur, row, acc⟩ dqCh
            = ⟨false, false, true, false, cur, row, acc⟩ from rfl]
        rw [show mstep ⟨false, false, true, false, cur, row, acc⟩ dqCh
            = ⟨false, true, false, false, dqCh :: cur, row, acc⟩ from rfl]
        rw [ih (dqCh :: cur) row acc]
        simp
      · simp only [escQ, if_neg hc, List.foldl_cons]
        have hstep : mstep ⟨false, true, false, false, cur, row, acc⟩ c
            = ⟨false, true, false, false, c :: cur, row, acc⟩ := by
          simp [mstep, hc]
        rw [hstep, ih (c :: cur) row acc]
        simp

/-- Helper: characters of a field the stringifier leaves unquoted contain
no quote, delimiter or LF. -/
theorem no_special_of_not_needsQuote (f : List Char) (h : needsQuoteF f = false) :
    ∀ c ∈ f, c ≠ dqCh ∧ c ≠ commaCh ∧ c ≠ nlCh := by
  intro c hc
  have h2 := (List.any_eq_false ..).mp h c hc
  simp only [Bool.or_eq_true, decide_eq_true_eq, not_or] at h2
  exact ⟨h2.1.1.1, h2.1.1.2, h2.1.2⟩

/-- Helper: consuming one encoded field and a delimiter pushes exactly that
field onto the current record. -/
theorem foldl_mstep_field_comma (f : List Char) (row : List (List Char))
    (acc : List (List (List Char))) :
    List.foldl mstep ⟨false, false, false, true, [], row, acc⟩
        (encField f ++ [commaCh])
      = ⟨false, false, false, true, [], f :: row, acc⟩ := by
  by_cases hq : needsQuoteF f
  · rw [show encField f = dqCh :: (escQ f ++ [dqCh]) from by
      simp [encField, hq]]
    simp only [List.cons_append, List.foldl_cons]
    rw [show mstep ⟨false, false, false, true, [], row, acc⟩ dqCh
        = ⟨false, true, false, false, [], row, acc⟩ from rfl]
    rw [show (escQ f ++ [dqCh]) ++ [commaCh] = escQ f ++ [dqCh, commaCh] from by
      simp]
    rw [List.foldl_append]
    rw [foldl_mstep_quoted f [] row acc]
    simp [List.foldl_cons, List.foldl_nil, mstep,
      (by decide : ¬(commaCh = dqCh))]
  · rw [show encField f = f from by simp [encField, hq]]
    rw [List.foldl_append]
    rw [foldl_mstep_unquoted f (no_special_of_not_needsQuote f (by simpa using hq))
      true [] row acc]
    have hstep : mstep ⟨false, false, false, true && f.isEmpty, f.reverse ++ [], row, acc⟩ commaCh
        = ⟨false, false, false, true, [], f :: row, acc⟩ := by
      simp [mstep, dqCh, commaCh]
    simp only [List.foldl_cons, List.foldl_nil, hstep]

/-- Helper: consuming one encoded field and a LF closes the current record
into the accumulator. -/
theorem foldl_mstep_field_nl (f : List Char) (row : List (List Char))
    (acc : List (List (List Char))) :
    List.foldl mstep ⟨false, false, false, true, [], row, acc⟩
        (encField f ++ [nlCh])
      = ⟨false, false, false, true, [], [], (f :: row).reverse :: acc⟩ := by
  by_cases hq : needsQuoteF f
  · rw [show encField f = dqCh :: (escQ f ++ [dqCh]) from by
      simp [encField, hq]]
    simp only [List.cons_append, List.foldl_cons]
    rw [show mstep ⟨false, false, false, true, [], row, acc⟩ dqCh
        = ⟨false, true, false, false, [], row, acc⟩ from rfl]
    rw [show (escQ f ++ [dqCh]) ++ [nlCh] = escQ f ++ [dqCh, nlCh] from by
      simp]
    rw [List.foldl_append]
    rw [foldl_mstep_quoted f [] row acc]
    simp [List.foldl_cons, List.foldl_nil, mstep,
      (by decide : ¬(nlCh = dqCh)), (by decide : ¬(nlCh = commaCh))]
  · rw [show encField f = f from by simp [encField, hq]]
    rw [List.foldl_append]
    rw [foldl_mstep_unquoted f (no_special_of_not_needsQuote f (by simpa using hq))
      true [] row acc]
    have hstep : mstep ⟨false, false, false, true && f.isEmpty, f.reverse ++ [], row, acc⟩ nlCh
        = ⟨false, false, false, true, [], [], (f :: row).reverse :: acc⟩ := by
      simp [mstep, dqCh, commaCh, nlCh]
    simp only [List.foldl_cons, List.foldl_nil, hstep]

/-- Helper: consuming one whole encoded record and its LF terminator
appends that record (after the fields already pending) to the
accumulator. -/
theorem foldl_mstep_row (fs : List (List Char)) :
    ∀ (f : List Char) (row : List (List Char)) (acc : List (List (List Char))),
    List.foldl mstep ⟨false, false, false, true, [], row, acc⟩
        (encRow (f :: fs) ++ [nlCh])
      = ⟨false, false, false, true, [], [], (row.reverse ++ f :: fs) :: acc⟩ := by
  induction fs with
  | nil =>
      intro f row acc
      rw [show encRow [f] = encField f from rfl]
      rw [foldl_mstep_field_nl f row acc]
      simp
  | cons g gs ih =>
      intro f row acc
      rw [show encRow (f :: g :: gs) = encField f ++ commaCh :: encRow (g :: gs)
        from rfl]
      rw [show (encField f ++ commaCh :: encRow (g :: gs)) ++ [nlCh]
          = (encField f ++ [commaCh]) ++ (encRow (g :: gs) ++ [nlCh]) from by
        simp]
      rw [List.foldl_append]
      rw [foldl_mstep_field_comma f row acc]
      rw [ih g (f :: row) acc]
      simp

/-- Helper: consuming a whole encoded document from a clean state
accumulates all its records, provided no record is empty. -/
theorem foldl_mstep_csv (rows : List (List (List Char))) :
    ∀ (acc : List (List (List Char))), (∀ r ∈ rows, r ≠ []) →
    List.foldl mstep ⟨false, false, false, true, [], [], acc⟩ (encCsv rows)
      = ⟨false, false, false, true, [], [], rows.reverse ++ acc⟩ := by
  induction rows with
  | nil => intro acc h; simp [encCsv]
  | cons r rs ih =>
      intro acc h
      have hrne : r ≠ [] := h r (List.mem_cons_self r rs)
      match r, hrne with
      | [], hne => exact absurd rfl hne
      | f :: fs, _ =>
          rw [show encCsv ((f :: fs) :: rs)
              = (encRow (f :: fs) ++ [nlCh]) ++ encCsv rs from by
            simp [encCsv]]
          rw [List.foldl_append]
          rw [foldl_mstep_row fs f [] acc]
          simp only [List.reverse_nil, List.nil_append]
          rw [ih ((f :: fs) :: acc)
            (fun x hx => h x (List.mem_cons_of_mem _ hx))]
          simp

/-- Helper: the parser inverts the stringifier on documents whose records
all have at least one field. -/
theorem parseRecords_encCsv (rows : List (List (List Char)))
    (h : ∀ r ∈ rows, r ≠ []) :
    parseRecords (encCsv rows) = some (rows.map (fun r => r.map String.mk)) := by
  unfold parseRecords
  rw [show minit = ⟨false, false, false, true, [], [], []⟩ from rfl]
  rw [foldl_mstep_csv rows [] h]
  simp [mfinal]

/-- Helper: looking up each key of an association list with distinct keys
recovers its values in order. -/
theorem lookup_all_keys (fields : List (String × String)) :
    (fields.map Prod.fst).Nodup →
    (fields.map Prod.fst).map (fun k => (fields.lookup k).getD "")
      = fields.map Prod.snd := by
  induction fields with
  | nil => intro _; rfl
  | cons p t ih =>
      intro hnd
      have hhead : List.lookup p.1 (p :: t) = some p.2 := by
        simp [List.lookup]
      have hnd' : (p.1 :: t.map Prod.fst).Nodup := by
        rw [List.map_cons] at hnd
        exact hnd
      have hnotin : p.1 ∉ t.map Prod.fst := (List.nodup_cons.mp hnd').1
      have htail : ∀ k ∈ t.map Prod.fst,
          List.lookup k (p :: t) = List.lookup k t := by
        intro k hk
        have hne : k ≠ p.1 := fun he => hnotin (he ▸ hk)
        simp [List.lookup, beq_eq_false_iff_ne.mpr hne]
      simp only [List.map_cons, hhead]
      have hmapeq : (t.map Prod.fst).map (fun k => (List.lookup k (p :: t)).getD "")
          = (t.map Prod.fst).map (fun k => (List.lookup k t).getD "") :=
        List.map_congr_left (fun k hk => by rw [htail k hk])
      have hnd2 : (t.map Prod.fst).Nodup := (List.nodup_cons.mp hnd').2
      rw [show ∀ l : List String, l.map (fun k => (List.lookup k (p :: t)).getD "")
          = l.map (fun k => (List.lookup k (p :: t)).getD "") from fun l => rfl]
      refine congrArg₂ List.cons ?_ ?_
      · rfl
      · rw [hmapeq, ih hnd2]

/-- Helper: the stringifier's value extraction on a stored failed row whose
own keys avoid the synthetic names yields the original field values
followed by the stringified line number and the reason. -/
theorem failedRowValues_eq (keys : List String) (fr : FailedRow)
    (hf : fr.fields.map Prod.fst = keys) (hnd : keys.Nodup)
    (hr : "__row" ∉ keys) (hs : "__reason" ∉ keys) :
    failedRowValues (keys ++ ["__row", "__reason"]) fr
      = fr.fields.map Prod.snd ++ [toString fr.lineNo, fr.reason] := by
  unfold failedRowValues
  rw [List.map_append]
  refine congrArg₂ List.append ?_ ?_
  · have hmap : keys.map (fun k =>
        if k = "__row" then toString fr.lineNo
        else if k = "__reason" then fr.reason
        else (fr.fields.lookup k).getD "")
        = keys.map (fun k => (fr.fields.lookup k).getD "") := by
      refine List.map_congr_left (fun k hk => ?_)
      have h1 : k ≠ "__row" := fun he => hr (he ▸ hk)
      have h2 : k ≠ "__reason" := fun he => hs (he ▸ hk)
      rw [if_neg h1, if_neg h2]
    rw [hmap]
    rw [← hf] at hnd ⊢
    exact lookup_all_keys fr.fields hnd
  · simp

/-- Helper: rebuilding strings from their character data is the
identity. -/
theorem map_mk_data (l : List String) : (l.map String.data).map String.mk = l := by
  rw [List.map_map]
  exact Eq.trans (List.map_congr_left (fun s _ => rfl)) (List.map_id _)

/-- C8: re-parsing the delimited text produced by the failed-row download
yields, after the header record, exactly one record per stored failed row
whose field values are the original failed input row's field values
followed by the two synthetic columns (line number and failure reason). -/
theorem failed_csv_roundtrip (fr0 : FailedRow) (rest : List FailedRow)
    (hall : ∀ fr ∈ fr0 :: rest,
        fr.fields.map Prod.fst = fr0.fields.map Prod.fst)
    (hnd : (fr0.fields.map Prod.fst).Nodup)
    (hr : "__row" ∉ fr0.fields.map Prod.fst)
    (hs : "__reason" ∉ fr0.fields.map Prod.fst) :
    parseRecords (stripBom (downloadCsvChars (fr0 :: rest)))
      = some ((fr0.fields.map Prod.fst ++ ["__row", "__reason"])
          :: (fr0 :: rest).map (fun fr =>
              fr.fields.map Prod.snd ++ [toString fr.lineNo, fr.reason])) := by
  have hkeys : downloadKeys (fr0 :: rest)
      = fr0.fields.map Prod.fst ++ ["__row", "__reason"] := rfl
  have hsb : stripBom (downloadCsvChars (fr0 :: rest))
      = encCsv (((downloadKeys (fr0 :: rest)).map String.data)
          :: (fr0 :: rest).map (fun fr =>
              (failedRowValues (downloadKeys (fr0 :: rest)) fr).map String.data)) := by
    simp [downloadCsvChars, stripBom]
  rw [hsb]
  have hvals : ∀ fr ∈ fr0 :: rest,
      failedRowValues (downloadKeys (fr0 :: rest)) fr
        = fr.fields.map Prod.snd ++ [toString fr.lineNo, fr.reason] := by
    intro fr hfr
    rw [hkeys]
    exact failedRowValues_eq (fr0.fields.map Prod.fst) fr (hall fr hfr) hnd hr hs
  have hrecs : (fr0 :: rest).map (fun fr =>
        (failedRowValues (downloadKeys (fr0 :: rest)) fr).map String.data)
      = (fr0 :: rest).map (fun fr =>
          (fr.fields.map Prod.snd ++ [toString fr.lineNo, fr.reason]).map String.data) :=
    List.map_congr_left (fun fr hfr => by rw [hvals fr hfr])
  rw [hrecs]
  have hne : ∀ r ∈ ((downloadKeys (fr0 :: rest)).map String.data)
      :: (fr0 :: rest).map (fun fr =>
          (fr.fields.map Prod.snd ++ [toString fr.lineNo, fr.reason]).map String.data),
      r ≠ [] := by
    intro r hrr
    rcases List.mem_cons.mp hrr with he | hm
    · subst he
      rw [hkeys]
      simp
    · rcases List.mem_map.mp hm with ⟨fr, _, he⟩
      subst he
      simp
  rw [parseRecords_encCsv _ hne, hkeys]
  simp [map_mk_data, List.map_map, Function.comp]

/-- Witness for C8: a concrete two-row failed batch, one value containing
the delimiter (so its field is quoted on the way out), survives the
download/re-parse round trip. -/
theorem failed_csv_roundtrip_witness :
    parseRecords (stripBom (downloadCsvChars
      [⟨[("PN2", "A"), ("inch", "55")], 2, "dup"⟩,
       ⟨[("PN2", "B,x"), ("inch", "")], 3, "bad"⟩]))
      = some [["PN2", "inch", "__row", "__reason"],
              ["A", "55", "2", "dup"],
              ["B,x", "", "3", "bad"]] := by
  have h := failed_csv_roundtrip ⟨[("PN2", "A"), ("inch", "55")], 2, "dup"⟩
    [⟨[("PN2", "B,x"), ("inch", "")], 3, "bad"⟩]
    (by decide) (by decide) (by decide) (by decide)
  rw [h]
  decide
